import Mathlib

/-!
Shallow embedding of the pngcoder chunk codec (src/chunk_type.rs, src/chunk.rs,
src/main.rs) in Lean 4, together with theorems settling the frozen claims about
its specification.

Modelling conventions:
  - bytes are Nat values (well-formedness bounds b < 256 appear as explicit
    hypotheses where a property of the Rust u8 type is needed);
  - byte buffers (Rust Vec<u8> and byte slices) are List Nat;
  - a Rust function that can panic is modelled with Option: none means panic;
  - fallible functions return Except PngError; the Rust code erases concrete
    error enums into Box<dyn Error>, here they are merged into one inductive.
-/

deriving instance DecidableEq for Except

/-- Error values of ChunkTypeError and ChunkError (chunk_type.rs, chunk.rs),
merged into a single inductive mirroring the single boxed error type. -/
inductive PngError where
  | invalidLength (n : Nat)
  | invalidCharacter
  | invalidChunkLength (n : Nat)
  | invalidChunkType
  | crcMismatch (expected actual : Nat)
deriving DecidableEq

/-- Model of the Rust array type of four u8 values. -/
structure Bytes4 where
  b0 : Nat
  b1 : Nat
  b2 : Nat
  b3 : Nat
deriving DecidableEq

def Bytes4.toList (v : Bytes4) : List Nat := [v.b0, v.b1, v.b2, v.b3]

/-- Length of a Rust array of type square-bracket u8 semicolon 4: always 4. -/
def Bytes4.len (_ : Bytes4) : Nat := 4

def isAsciiLowercase (b : Nat) : Bool := 97 ≤ b && b ≤ 122

def isAsciiUppercase (b : Nat) : Bool := 65 ≤ b && b ≤ 90

/-- Matches the Rust range pattern for ASCII letters in chunk_type.rs. -/
def isAsciiLetter (b : Nat) : Bool := isAsciiLowercase b || isAsciiUppercase b

/-- ChunkType from chunk_type.rs: a wrapper around 4 bytes. -/
structure ChunkType where
  bytes : Bytes4
deriving DecidableEq

/-- Accessor bytes() returning the 4 bytes, as a list for concatenation. -/
def ChunkType.bytesList (t : ChunkType) : List Nat := t.bytes.toList

/-- is_reserved_bit_valid from chunk_type.rs: byte index 2 is ASCII uppercase. -/
def ChunkType.is_reserved_bit_valid (t : ChunkType) : Bool :=
  isAsciiUppercase t.bytes.b2

/-- is_valid from chunk_type.rs: the loop returns false on the first byte that
is not an ASCII letter, then checks is_reserved_bit_valid; unrolled over the
four bytes. -/
def ChunkType.is_valid (t : ChunkType) : Bool :=
  isAsciiLetter t.bytes.b0 && isAsciiLetter t.bytes.b1 &&
  isAsciiLetter t.bytes.b2 && isAsciiLetter t.bytes.b3 &&
  t.is_reserved_bit_valid

/-- TryFrom of a 4-byte array for ChunkType (chunk_type.rs lines 49 to 59): the
source checks value.len() != 4 on a fixed-size array, whose len is always 4,
then stores the bytes verbatim. -/
def ChunkType.try_from (value : Bytes4) : Except PngError ChunkType :=
  if value.len ≠ 4 then Except.error (PngError.invalidLength value.len)
  else Except.ok ⟨value⟩

/-- FromStr for ChunkType (chunk_type.rs lines 61 to 82), on the byte content
of the input string: length check, then ASCII letter check on every byte,
then delegation to try_from on the first four bytes (in bounds by the length
check, so getD never uses its default). -/
def ChunkType.from_str (s : List Nat) : Except PngError ChunkType :=
  if s.length ≠ 4 then Except.error (PngError.invalidLength s.length)
  else if !(s.all isAsciiLetter) then Except.error PngError.invalidCharacter
  else ChunkType.try_from ⟨s.getD 0 0, s.getD 1 0, s.getD 2 0, s.getD 3 0⟩

/-- Expected shape of a UTF-8 sequence given its first byte, per the table of
RFC 3629 used by the Rust standard library function str::from_utf8: the
number of continuation bytes and the allowed range of the first continuation
byte, or none when the byte cannot start a sequence. -/
def utf8Start (b : Nat) : Option (Nat × Nat × Nat) :=
  if b ≤ 127 then some (0, 0, 0)
  else if 194 ≤ b ∧ b ≤ 223 then some (1, 128, 191)
  else if b = 224 then some (2, 160, 191)
  else if (225 ≤ b ∧ b ≤ 236) ∨ b = 238 ∨ b = 239 then some (2, 128, 191)
  else if b = 237 then some (2, 128, 159)
  else if b = 240 then some (3, 144, 191)
  else if 241 ≤ b ∧ b ≤ 243 then some (3, 128, 191)
  else if b = 244 then some (3, 128, 143)
  else none

/-- Automaton run for UTF-8 validity: rem counts pending continuation bytes,
lo and hi bound the next continuation byte (bytes after the first
continuation byte are always in 128 .. 191). -/
def utf8Loop : Nat → Nat → Nat → List Nat → Bool
  | 0, _, _, [] => true
  | _ + 1, _, _, [] => false
  | 0, _, _, b :: rest =>
    match utf8Start b with
    | none => false
    | some s => utf8Loop s.1 s.2.1 s.2.2 rest
  | r + 1, lo, hi, b :: rest => (lo ≤ b && b ≤ hi) && utf8Loop r 128 191 rest

/-- Validity of a byte sequence as UTF-8 (RFC 3629 well-formed sequences),
as checked by str::from_utf8. -/
def utf8Valid (l : List Nat) : Bool := utf8Loop 0 0 0 l

/-- Display for ChunkType (chunk_type.rs lines 43 to 47): write the bytes as a
string via str::from_utf8(...).unwrap(); the unwrap panics (none) when the
bytes are not valid UTF-8, otherwise the textual form is the bytes. -/
def ChunkType.display (t : ChunkType) : Option (List Nat) :=
  if utf8Valid t.bytesList then some t.bytesList else none

/-- Reflected generator polynomial of CRC-32 ISO-HDLC, 0xEDB88320. -/
def crcPoly : Nat := 0xEDB88320

/-- One bit round of the reflected CRC-32 algorithm. -/
def crcStep (c : Nat) : Nat := (c / 2) ^^^ (if c % 2 = 1 then crcPoly else 0)

/-- Iterated bit rounds. -/
def crcRounds : Nat → Nat → Nat
  | 0, c => c
  | n + 1, c => crcRounds n (crcStep c)

/-- Absorb one message byte: xor into the state, then 8 bit rounds. -/
def crcByte (c b : Nat) : Nat := crcRounds 8 (c ^^^ b)

/-- Absorb a byte sequence. -/
def crcLoop : Nat → List Nat → Nat
  | c, [] => c
  | c, b :: rest => crcLoop (crcByte c b) rest

/-- CRC-32 ISO-HDLC of a message (init 0xFFFFFFFF, final xor 0xFFFFFFFF),
the checksum computed by the crc crate with crc::CRC_32_ISO_HDLC as used in
Chunk::crc. -/
def crc32 (msg : List Nat) : Nat := crcLoop 0xFFFFFFFF msg ^^^ 0xFFFFFFFF

/-- MAX_CHUNK_LEN from main.rs: 2147483648 = 2 ^ 31. -/
def MAX_CHUNK_LEN : Nat := 2147483648

/-- Chunk from chunk.rs: a chunk type and owned payload bytes. -/
structure Chunk where
  chunk_type : ChunkType
  data : List Nat
deriving DecidableEq

/-- Chunk::new (chunk.rs lines 14 to 23): panics (none) when the data length
exceeds MAX_CHUNK_LEN, otherwise stores type and data unchanged. -/
def Chunk.new (chunk_type : ChunkType) (data : List Nat) : Option Chunk :=
  if data.length > MAX_CHUNK_LEN then none
  else some ⟨chunk_type, data⟩

/-- Chunk::length (chunk.rs lines 25 to 27): data length cast to u32. -/
def Chunk.length (c : Chunk) : Nat := c.data.length % 4294967296

/-- Chunk::crc (chunk.rs lines 37 to 43): CRC-32 ISO-HDLC over the type bytes
followed by the data, recomputed on every call. -/
def Chunk.crc (c : Chunk) : Nat := crc32 (c.chunk_type.bytesList ++ c.data)

/-- Big-endian byte decomposition of a u32 value (u32::to_be_bytes). -/
def u32_to_be_bytes (n : Nat) : List Nat :=
  [n / 16777216 % 256, n / 65536 % 256, n / 256 % 256, n % 256]

/-- u32::from_be_bytes on four bytes. -/
def u32_from_be_bytes (b0 b1 b2 b3 : Nat) : Nat :=
  b0 * 16777216 + b1 * 65536 + b2 * 256 + b3

/-- u32::from_be_bytes applied to a 4-byte slice; every use site is guarded so
that the slice has exactly 4 bytes and the default branch (the unreachable
error of try_into on a 4-byte slice) is never taken. -/
def u32_from_be_list : List Nat → Nat
  | [b0, b1, b2, b3] => u32_from_be_bytes b0 b1 b2 b3
  | _ => 0

/-- Chunk::as_bytes (chunk.rs lines 50 to 59): big-endian u32 length, the 4
type bytes, the data, and the big-endian u32 CRC, concatenated. -/
def Chunk.as_bytes (c : Chunk) : List Nat :=
  u32_to_be_bytes c.length ++ c.chunk_type.bytesList ++ c.data ++
  u32_to_be_bytes c.crc

/-- TryFrom of a byte slice for Chunk (chunk.rs lines 87 to 116). The result
none models a panic of the Rust code: slicing value at 8 .. 8 + len
or at 8 + len .. 12 + len out of bounds, or the panic inside Chunk::new. -/
def Chunk.try_from (value : List Nat) : Option (Except PngError Chunk) :=
  if value.length < 12 then
    some (Except.error (PngError.invalidChunkLength value.length))
  else
    let data_length := u32_from_be_list (value.take 4)
    let chunk_type_bytes : Bytes4 :=
      ⟨value.getD 4 0, value.getD 5 0, value.getD 6 0, value.getD 7 0⟩
    match ChunkType.try_from chunk_type_bytes with
    | Except.error e => some (Except.error e)
    | Except.ok chunk_type =>
      if !chunk_type.is_valid then some (Except.error PngError.invalidChunkType)
      else if value.length < 8 + data_length then none
      else
        let data := (value.drop 8).take data_length
        match Chunk.new chunk_type data with
        | none => none
        | some chunk =>
          if value.length < 12 + data_length then none
          else
            let crc := u32_from_be_list ((value.drop (8 + data_length)).take 4)
            let calculated_crc := chunk.crc
            if crc ≠ calculated_crc then
              some (Except.error (PngError.crcMismatch crc calculated_crc))
            else some (Except.ok chunk)

/-- Declared big-endian data length at offset 0 of a serialized chunk. -/
def declaredLen (v : List Nat) : Nat := u32_from_be_list (v.take 4)

/-- Replace the byte at index i by the same byte with bit k flipped. -/
def flipByteAt (l : List Nat) (i k : Nat) : List Nat :=
  l.set i (l.getD i 0 ^^^ 2 ^ k)

/-- Chunk type RuSt from the tests in chunk.rs and chunk_type.rs. -/
def rustUpperType : ChunkType := ⟨⟨82, 117, 83, 116⟩⟩

/-- Byte content of the string Rust (lowercase s at index 2). -/
def rustLowerBytes : List Nat := [82, 117, 115, 116]

/-- Byte content of the 42-byte test payload from chunk.rs. -/
def secretMessage : List Nat :=
  [84, 104, 105, 115, 32, 105, 115, 32, 119, 104, 101, 114, 101, 32, 121,
   111, 117, 114, 32, 115, 101, 99, 114, 101, 116, 32, 109, 101, 115, 115,
   97, 103, 101, 32, 119, 105, 108, 108, 32, 98, 101, 33]

lemma nat_xor_right_cancel {a b c : Nat} (h : a ^^^ c = b ^^^ c) : a = b := by
  have h2 := congrArg (fun z => z ^^^ c) h
  simpa [Nat.xor_assoc, Nat.xor_self, Nat.xor_zero] using h2

lemma nat_xor_left_cancel {a b c : Nat} (h : c ^^^ a = c ^^^ b) : a = b := by
  have h2 := congrArg (fun z => c ^^^ z) h
  simpa [← Nat.xor_assoc, Nat.xor_self, Nat.zero_xor] using h2

lemma u32_roundtrip (n : Nat) (h : n < 4294967296) :
    u32_from_be_list (u32_to_be_bytes n) = n := by
  simp only [u32_to_be_bytes, u32_from_be_list, u32_from_be_bytes]
  omega

/-- C4: Chunk.new aborts with a panic exactly when the data length exceeds
MAX_CHUNK_LEN, which equals 2 ^ 31 = 2147483648; for any data of length at
most 2 ^ 31 construction succeeds and stores the type and data unchanged. -/
theorem chunk_new_panics_iff_oversized :
    MAX_CHUNK_LEN = 2 ^ 31 ∧
    ∀ (t : ChunkType) (d : List Nat),
      (Chunk.new t d = none ↔ d.length > MAX_CHUNK_LEN) ∧
      (d.length ≤ MAX_CHUNK_LEN → Chunk.new t d = some ⟨t, d⟩) := by
  refine ⟨by norm_num [MAX_CHUNK_LEN], fun t d => ⟨?_, ?_⟩⟩
  · unfold Chunk.new
    split_ifs with h
    · simpa using h
    · simpa using h
  · intro hle
    unfold Chunk.new
    rw [if_neg (by omega)]

/-- Witness for C4 at the empty payload. -/
theorem chunk_new_panics_iff_oversized_witness :
    ([] : List Nat).length ≤ MAX_CHUNK_LEN ∧
    Chunk.new rustUpperType [] = some ⟨rustUpperType, []⟩ :=
  ⟨by decide,
   (chunk_new_panics_iff_oversized.2 rustUpperType []).2 (by decide)⟩

set_option maxRecDepth 100000 in
/-- C5: the chunk with type RuSt and the literal 42-byte secret message has
length 42 and CRC 2882656334; in this model Chunk.crc is a pure function of
the chunk content, recomputed identically on every call. -/
theorem chunk_rust_secret_length_and_crc :
    Chunk.new rustUpperType secretMessage =
      some ⟨rustUpperType, secretMessage⟩ ∧
    Chunk.length ⟨rustUpperType, secretMessage⟩ = 42 ∧
    Chunk.crc ⟨rustUpperType, secretMessage⟩ = 2882656334 := by
  refine ⟨by decide, by decide, by decide⟩

/-- C6: is_valid returns true exactly when all four bytes are ASCII letters
and byte index 2 is uppercase; the type built from Rust is constructible yet
is_valid returns false on it. -/
theorem chunk_type_is_valid_iff :
    (∀ t : ChunkType, t.is_valid = true ↔
      (((65 ≤ t.bytes.b0 ∧ t.bytes.b0 ≤ 90) ∨ (97 ≤ t.bytes.b0 ∧ t.bytes.b0 ≤ 122)) ∧
       ((65 ≤ t.bytes.b1 ∧ t.bytes.b1 ≤ 90) ∨ (97 ≤ t.bytes.b1 ∧ t.bytes.b1 ≤ 122)) ∧
       ((65 ≤ t.bytes.b2 ∧ t.bytes.b2 ≤ 90) ∨ (97 ≤ t.bytes.b2 ∧ t.bytes.b2 ≤ 122)) ∧
       ((65 ≤ t.bytes.b3 ∧ t.bytes.b3 ≤ 90) ∨ (97 ≤ t.bytes.b3 ∧ t.bytes.b3 ≤ 122)) ∧
       (65 ≤ t.bytes.b2 ∧ t.bytes.b2 ≤ 90))) ∧
    ChunkType.from_str rustLowerBytes = Except.ok ⟨⟨82, 117, 115, 116⟩⟩ ∧
    ChunkType.is_valid ⟨⟨82, 117, 115, 116⟩⟩ = false := by
  refine ⟨fun t => ?_, by decide, by decide⟩
  simp only [ChunkType.is_valid, ChunkType.is_reserved_bit_valid, isAsciiLetter,
    isAsciiLowercase, isAsciiUppercase, Bool.and_eq_true, Bool.or_eq_true,
    decide_eq_true_eq]
  tauto

/-- C7: from_str fails with InvalidLength exactly when the byte length is not
4, fails with InvalidCharacter exactly when the length is 4 but some byte is
not an ASCII letter, and otherwise succeeds storing the four bytes verbatim;
the input Ru1t fails with InvalidCharacter. -/
theorem chunk_type_from_str_spec :
    (∀ s : List Nat,
      ((∃ n, ChunkType.from_str s = Except.error (PngError.invalidLength n)) ↔
        s.length ≠ 4) ∧
      (ChunkType.from_str s = Except.error PngError.invalidCharacter ↔
        (s.length = 4 ∧ ¬ (∀ b ∈ s, isAsciiLetter b = true))) ∧
      (s.length = 4 → (∀ b ∈ s, isAsciiLetter b = true) →
        ChunkType.from_str s =
          Except.ok ⟨⟨s.getD 0 0, s.getD 1 0, s.getD 2 0, s.getD 3 0⟩⟩)) ∧
    ChunkType.from_str [82, 117, 49, 116] =
      Except.error PngError.invalidCharacter := by
  refine ⟨fun s => ?_, by decide⟩
  by_cases h4 : s.length = 4
  · by_cases hall : s.all isAsciiLetter = true
    · have hok : ChunkType.from_str s =
          Except.ok ⟨⟨s.getD 0 0, s.getD 1 0, s.getD 2 0, s.getD 3 0⟩⟩ := by
        unfold ChunkType.from_str ChunkType.try_from
        rw [if_neg (by omega), if_neg (by simp [hall]), if_neg (by simp [Bytes4.len])]
      have hforall : ∀ b ∈ s, isAsciiLetter b = true := List.all_eq_true.mp hall
      refine ⟨⟨fun hex => ?_, fun h => absurd h4 h⟩,
              ⟨fun h => ?_, fun hpair => absurd hforall hpair.2⟩,
              fun _ _ => hok⟩
      · obtain ⟨n, hn⟩ := hex
        rw [hok] at hn
        exact Except.noConfusion hn
      · rw [hok] at h
        exact Except.noConfusion h
    · have herr : ChunkType.from_str s = Except.error PngError.invalidCharacter := by
        unfold ChunkType.from_str
        rw [if_neg (by omega), if_pos (by simp [hall])]
      refine ⟨⟨fun hex => ?_, fun h => absurd h4 h⟩,
              ⟨fun _ => ⟨h4, fun hf => hall (List.all_eq_true.mpr hf)⟩, fun _ => herr⟩,
              fun _ hf => absurd (List.all_eq_true.mpr hf) hall⟩
      obtain ⟨n, hn⟩ := hex
      rw [herr] at hn
      exact PngError.noConfusion (Except.error.inj hn)
  · have herr : ChunkType.from_str s = Except.error (PngError.invalidLength s.length) := by
      unfold ChunkType.from_str
      rw [if_pos h4]
    refine ⟨⟨fun _ => h4, fun _ => ⟨s.length, herr⟩⟩,
            ⟨fun h => ?_, fun hpair => absurd hpair.1 h4⟩,
            fun h _ => absurd h h4⟩
    rw [herr] at h
    exact PngError.noConfusion (Except.error.inj h)

/-- Witness for C7 at the 4-letter input RuSt. -/
theorem chunk_type_from_str_spec_witness :
    ChunkType.from_str [82, 117, 83, 116] = Except.ok ⟨⟨82, 117, 83, 116⟩⟩ := by
  have h := (chunk_type_from_str_spec.1 [82, 117, 83, 116]).2.2 (by decide) (by decide)
  exact h

/-- C9: constructing a ChunkType from any 4-byte array always succeeds, the
error branch being unreachable, and the bytes are stored verbatim with no
content validation. -/
theorem chunk_type_try_from_always_ok (v : Bytes4) :
    ChunkType.try_from v = Except.ok ⟨v⟩ := rfl

/-- C2: the claim fails on the code: on this 12-byte input whose declared
payload length 100 exceeds the 4 bytes available after offset 8, the Rust
code panics on out-of-bounds slicing (modelled as none) instead of returning
an error value, so parsing is not total. -/
theorem chunk_try_from_oversized_declared_length_panics :
    Chunk.try_from [0, 0, 0, 100, 82, 117, 83, 116, 0, 0, 0, 0] = none := by
  decide

/-- C1 counterexample: with the constructible but invalid chunk type Rust and
an empty payload, parsing the serialization of Chunk.new fails with
InvalidChunkType instead of succeeding. -/
theorem chunk_roundtrip_counterexample :
    Chunk.new ⟨⟨82, 117, 115, 116⟩⟩ [] = some ⟨⟨⟨82, 117, 115, 116⟩⟩, []⟩ ∧
    Chunk.try_from (Chunk.as_bytes ⟨⟨⟨82, 117, 115, 116⟩⟩, []⟩) =
      some (Except.error PngError.invalidChunkType) := by
  refine ⟨by decide, by decide⟩

/-- C3 counterexample: for the chunk with type RuSt and empty data, flipping
bit 6 of serialized byte 4 turns the letter R into a non-letter byte, and
parsing then fails with InvalidChunkType, not with CrcMismatch. -/
theorem chunk_bitflip_counterexample :
    Chunk.try_from (flipByteAt (Chunk.as_bytes ⟨⟨⟨82, 117, 83, 116⟩⟩, []⟩) 4 6) =
      some (Except.error PngError.invalidChunkType) := by
  decide

lemma from_str_ok_of_letters (s : List Nat) (h4 : s.length = 4)
    (hall : s.all isAsciiLetter = true) :
    ChunkType.from_str s =
      Except.ok ⟨⟨s.getD 0 0, s.getD 1 0, s.getD 2 0, s.getD 3 0⟩⟩ := by
  unfold ChunkType.from_str ChunkType.try_from
  rw [if_neg (by omega), if_neg (by simp [hall]), if_neg (by simp [Bytes4.len])]

lemma take4_cons (a b c d : Nat) (l : List Nat) :
    (a :: b :: c :: d :: l).take 4 = [a, b, c, d] := rfl

lemma drop8_cons (a0 a1 a2 a3 a4 a5 a6 a7 : Nat) (l : List Nat) :
    (a0 :: a1 :: a2 :: a3 :: a4 :: a5 :: a6 :: a7 :: l).drop 8 = l := rfl

lemma drop8add_cons (n a0 a1 a2 a3 a4 a5 a6 a7 : Nat) (l : List Nat) :
    (a0 :: a1 :: a2 :: a3 :: a4 :: a5 :: a6 :: a7 :: l).drop (8 + n) = l.drop n := by
  rw [Nat.add_comm]
  rfl

lemma getD4_cons (a0 a1 a2 a3 a4 a5 a6 a7 : Nat) (l : List Nat) :
    (a0 :: a1 :: a2 :: a3 :: a4 :: a5 :: a6 :: a7 :: l).getD 4 0 = a4 := rfl

lemma getD5_cons (a0 a1 a2 a3 a4 a5 a6 a7 : Nat) (l : List Nat) :
    (a0 :: a1 :: a2 :: a3 :: a4 :: a5 :: a6 :: a7 :: l).getD 5 0 = a5 := rfl

lemma getD6_cons (a0 a1 a2 a3 a4 a5 a6 a7 : Nat) (l : List Nat) :
    (a0 :: a1 :: a2 :: a3 :: a4 :: a5 :: a6 :: a7 :: l).getD 6 0 = a6 := rfl

lemma getD7_cons (a0 a1 a2 a3 a4 a5 a6 a7 : Nat) (l : List Nat) :
    (a0 :: a1 :: a2 :: a3 :: a4 :: a5 :: a6 :: a7 :: l).getD 7 0 = a7 := rfl

lemma length_u32_to_be (n : Nat) : (u32_to_be_bytes n).length = 4 := rfl

lemma take4_u32_to_be (n : Nat) : (u32_to_be_bytes n).take 4 = u32_to_be_bytes n := rfl

lemma u32_from_be_list_cons (a b c d : Nat) :
    u32_from_be_list [a, b, c, d] = u32_from_be_bytes a b c d := rfl

lemma chunk_try_from_eval_core (x0 x1 x2 x3 : Nat) (t : ChunkType) (d : List Nat) (m : Nat)
    (hx : u32_from_be_bytes x0 x1 x2 x3 = d.length) (hm : m < 4294967296) :
    Chunk.try_from (x0 :: x1 :: x2 :: x3 :: t.bytes.b0 :: t.bytes.b1 :: t.bytes.b2 ::
        t.bytes.b3 :: (d ++ u32_to_be_bytes m)) =
      if t.is_valid = false then some (Except.error PngError.invalidChunkType)
      else if MAX_CHUNK_LEN < d.length then none
      else if m = crc32 (t.bytesList ++ d) then some (Except.ok ⟨t, d⟩)
      else some (Except.error (PngError.crcMismatch m (crc32 (t.bytesList ++ d)))) := by
  have htf : ChunkType.try_from ⟨t.bytes.b0, t.bytes.b1, t.bytes.b2, t.bytes.b3⟩ =
      Except.ok t := rfl
  simp only [Chunk.try_from, take4_cons, drop8_cons, drop8add_cons, getD4_cons, getD5_cons,
    getD6_cons, getD7_cons, List.length_cons, List.length_append, length_u32_to_be,
    u32_from_be_list_cons, hx, htf, List.take_left, List.drop_left, take4_u32_to_be,
    u32_roundtrip m hm]
  rw [if_neg (by omega)]
  by_cases hval : t.is_valid
  · rw [if_neg (by simp [hval]), if_neg (by omega), if_neg (by simp [hval])]
    by_cases hmax : MAX_CHUNK_LEN < d.length
    · have hnew : Chunk.new t d = none := by
        unfold Chunk.new
        rw [if_pos (by omega)]
      rw [hnew, if_pos hmax]
    · have hnew : Chunk.new t d = some ⟨t, d⟩ := by
        unfold Chunk.new
        rw [if_neg (by omega)]
      rw [hnew]
      simp only [if_neg hmax]
      rw [if_neg (by omega)]
      simp only [Chunk.crc]
      by_cases hcrc : m = crc32 (t.bytesList ++ d)
      · rw [if_neg (by simpa using hcrc), if_pos hcrc]
      · rw [if_pos (by simpa using hcrc), if_neg hcrc]
  · rw [if_pos (by simp [hval]), if_pos (by simp [hval])]

lemma chunk_try_from_eval (t : ChunkType) (d : List Nat) (m : Nat)
    (hd : d.length < 4294967296) (hm : m < 4294967296) :
    Chunk.try_from (u32_to_be_bytes d.length ++ t.bytesList ++ d ++ u32_to_be_bytes m) =
      if t.is_valid = false then some (Except.error PngError.invalidChunkType)
      else if MAX_CHUNK_LEN < d.length then none
      else if m = crc32 (t.bytesList ++ d) then some (Except.ok ⟨t, d⟩)
      else some (Except.error (PngError.crcMismatch m (crc32 (t.bytesList ++ d)))) := by
  have hv : u32_to_be_bytes d.length ++ t.bytesList ++ d ++ u32_to_be_bytes m =
      (d.length / 16777216 % 256) :: (d.length / 65536 % 256) :: (d.length / 256 % 256) ::
      (d.length % 256) :: t.bytes.b0 :: t.bytes.b1 :: t.bytes.b2 :: t.bytes.b3 ::
      (d ++ u32_to_be_bytes m) := by
    simp [u32_to_be_bytes, ChunkType.bytesList, Bytes4.toList]
  rw [hv]
  exact chunk_try_from_eval_core _ _ _ _ t d m (by
    have := u32_roundtrip d.length hd
    simpa [u32_to_be_bytes, u32_from_be_list] using this) hm

lemma xor_lt_u32 {a b : Nat} (ha : a < 4294967296) (hb : b < 4294967296) :
    a ^^^ b < 4294967296 := by
  have h32 : (4294967296 : Nat) = 2 ^ 32 := by norm_num
  rw [h32] at ha hb ⊢
  exact Nat.xor_lt_two_pow ha hb

lemma crcStep_lt {c : Nat} (h : c < 4294967296) : crcStep c < 4294967296 := by
  unfold crcStep
  have h1 : c / 2 < 4294967296 := by omega
  split_ifs
  · exact xor_lt_u32 h1 (by norm_num [crcPoly])
  · simpa using h1

lemma crcRounds_lt : ∀ (n : Nat) {c : Nat}, c < 4294967296 → crcRounds n c < 4294967296
  | 0, _, h => h
  | n + 1, _, h => crcRounds_lt n (crcStep_lt h)

lemma crcByte_lt {c b : Nat} (hc : c < 4294967296) (hb : b < 256) :
    crcByte c b < 4294967296 := by
  unfold crcByte
  exact crcRounds_lt 8 (xor_lt_u32 hc (by omega))

lemma crcLoop_lt : ∀ (l : List Nat) {c : Nat}, c < 4294967296 → (∀ b ∈ l, b < 256) →
    crcLoop c l < 4294967296
  | [], _, h, _ => h
  | b :: rest, _, h, hl =>
    crcLoop_lt rest (crcByte_lt h (hl b (List.mem_cons_self b rest)))
      (fun x hx => hl x (List.mem_cons_of_mem b hx))

lemma crc32_lt (msg : List Nat) (h : ∀ b ∈ msg, b < 256) : crc32 msg < 4294967296 := by
  unfold crc32
  exact xor_lt_u32 (crcLoop_lt msg (by norm_num) h) (by norm_num)

/-- C1 amended: for every chunk type passing is_valid and every byte payload of
length at most MAX_CHUNK_LEN, construction succeeds and parsing the
serialization returns exactly the original chunk, hence the same type, data
and CRC. -/
theorem chunk_roundtrip_valid_type (t : ChunkType) (d : List Nat)
    (hvalid : t.is_valid = true)
    (ht : ∀ b ∈ t.bytesList, b < 256) (hd : ∀ b ∈ d, b < 256)
    (hlen : d.length ≤ MAX_CHUNK_LEN) :
    Chunk.new t d = some ⟨t, d⟩ ∧
    Chunk.try_from (Chunk.as_bytes ⟨t, d⟩) = some (Except.ok ⟨t, d⟩) := by
  have hmax : d.length ≤ 2147483648 := by simpa [MAX_CHUNK_LEN] using hlen
  have hnew : Chunk.new t d = some ⟨t, d⟩ := by
    unfold Chunk.new
    rw [if_neg (by simp [MAX_CHUNK_LEN]; omega)]
  refine ⟨hnew, ?_⟩
  have hcb : ∀ b ∈ t.bytesList ++ d, b < 256 := by
    intro b hb
    rcases List.mem_append.mp hb with h | h
    · exact ht b h
    · exact hd b h
  have hcrc_lt : crc32 (t.bytesList ++ d) < 4294967296 := crc32_lt _ hcb
  have hlen_eq : Chunk.length ⟨t, d⟩ = d.length := by
    simp only [Chunk.length]
    omega
  have hab : Chunk.as_bytes ⟨t, d⟩ =
      u32_to_be_bytes d.length ++ t.bytesList ++ d ++
      u32_to_be_bytes (crc32 (t.bytesList ++ d)) := by
    simp only [Chunk.as_bytes, hlen_eq, Chunk.crc]
  rw [hab, chunk_try_from_eval t d _ (by omega) hcrc_lt]
  rw [if_neg (by simp [hvalid]), if_neg (by simp [MAX_CHUNK_LEN]; omega), if_pos rfl]

/-- Witness for C1 amended at the type RuSt with a 3-byte payload. -/
theorem chunk_roundtrip_valid_type_witness :
    rustUpperType.is_valid = true ∧
    Chunk.new rustUpperType [1, 2, 3] = some ⟨rustUpperType, [1, 2, 3]⟩ ∧
    Chunk.try_from (Chunk.as_bytes ⟨rustUpperType, [1, 2, 3]⟩) =
      some (Except.ok ⟨rustUpperType, [1, 2, 3]⟩) := by
  have h := chunk_roundtrip_valid_type rustUpperType [1, 2, 3]
    (by decide) (by decide) (by decide) (by decide)
  exact ⟨by decide, h.1, h.2⟩

lemma ascii_letter_le (b : Nat) (h : isAsciiLetter b = true) : b ≤ 127 := by
  simp only [isAsciiLetter, isAsciiLowercase, isAsciiUppercase, Bool.or_eq_true,
    Bool.and_eq_true, decide_eq_true_eq] at h
  omega

lemma utf8Loop_ascii : ∀ (l : List Nat), (∀ b ∈ l, b ≤ 127) → ∀ x y, utf8Loop 0 x y l = true := by
  intro l
  induction l with
  | nil => intro _ x y; rfl
  | cons b rest ih =>
    intro h x y
    have hb : b ≤ 127 := h b (List.mem_cons_self b rest)
    rw [utf8Loop]
    rw [show utf8Start b = some (0, 0, 0) from by unfold utf8Start; rw [if_pos hb]]
    exact ih (fun z hz => h z (List.mem_cons_of_mem b hz)) 0 0

lemma utf8Valid_of_ascii (l : List Nat) (h : ∀ b ∈ l, b ≤ 127) : utf8Valid l = true :=
  utf8Loop_ascii l h 0 0

lemma list_len4_eq : ∀ (s : List Nat), s.length = 4 →
    s = [s.getD 0 0, s.getD 1 0, s.getD 2 0, s.getD 3 0]
  | [], h => by simp at h
  | [_], h => by simp at h
  | [_, _], h => by simp at h
  | [_, _, _], h => by simp at h
  | a :: b :: c :: d :: rest, h => by
    have hr : rest = [] := by
      simp only [List.length_cons] at h
      exact List.length_eq_zero.mp (by omega)
    subst hr
    rfl

/-- C8: for every 4-character string of ASCII letters, parsing succeeds and
the Display form of the resulting ChunkType is exactly the input string. -/
theorem chunk_type_parse_display_roundtrip (s : List Nat)
    (h4 : s.length = 4) (hletters : ∀ b ∈ s, isAsciiLetter b = true) :
    ∃ t, ChunkType.from_str s = Except.ok t ∧ ChunkType.display t = some s := by
  refine ⟨⟨⟨s.getD 0 0, s.getD 1 0, s.getD 2 0, s.getD 3 0⟩⟩,
    from_str_ok_of_letters s h4 (List.all_eq_true.mpr hletters), ?_⟩
  have hb : ChunkType.bytesList ⟨⟨s.getD 0 0, s.getD 1 0, s.getD 2 0, s.getD 3 0⟩⟩ = s :=
    (list_len4_eq s h4).symm
  unfold ChunkType.display
  rw [hb, if_pos (utf8Valid_of_ascii s (fun b hbm => ascii_letter_le b (hletters b hbm)))]

/-- Witness for C8 at the input RuSt. -/
theorem chunk_type_parse_display_roundtrip_witness :
    ∃ t, ChunkType.from_str [82, 117, 83, 116] = Except.ok t ∧
      ChunkType.display t = some [82, 117, 83, 116] :=
  chunk_type_parse_display_roundtrip [82, 117, 83, 116] (by decide) (by decide)

lemma getD_append_left {l₁ l₂ : List Nat} {i : Nat} (d : Nat) (h : i < l₁.length) :
    (l₁ ++ l₂).getD i d = l₁.getD i d := by
  simp [List.getD, List.getElem?_append_left h]

/-- C10: when a byte slice of exactly 12 + declared-length bytes parses to a
chunk, appending arbitrary trailing bytes neither causes an error nor changes
the parsed chunk. -/
theorem chunk_try_from_ignores_trailing (v extra : List Nat) (c : Chunk)
    (hok : Chunk.try_from v = some (Except.ok c))
    (hlen : v.length = 12 + declaredLen v) :
    Chunk.try_from (v ++ extra) = some (Except.ok c) := by
  unfold declaredLen at hlen
  have h12 : ¬ (v.length < 12) := by
    intro hlt
    simp only [Chunk.try_from] at hok
    rw [if_pos hlt] at hok
    simp at hok
  have htake : (v ++ extra).take 4 = v.take 4 :=
    List.take_append_of_le_length (by omega)
  have hg4 : (v ++ extra).getD 4 0 = v.getD 4 0 := getD_append_left 0 (by omega)
  have hg5 : (v ++ extra).getD 5 0 = v.getD 5 0 := getD_append_left 0 (by omega)
  have hg6 : (v ++ extra).getD 6 0 = v.getD 6 0 := getD_append_left 0 (by omega)
  have hg7 : (v ++ extra).getD 7 0 = v.getD 7 0 := getD_append_left 0 (by omega)
  have hdrop8 : (v ++ extra).drop 8 = v.drop 8 ++ extra :=
    List.drop_append_of_le_length (by omega)
  have hdata : ((v ++ extra).drop 8).take (u32_from_be_list (v.take 4)) =
      (v.drop 8).take (u32_from_be_list (v.take 4)) := by
    rw [hdrop8]
    exact List.take_append_of_le_length (by simp [List.length_drop]; omega)
  have hdropc : (v ++ extra).drop (8 + u32_from_be_list (v.take 4)) =
      v.drop (8 + u32_from_be_list (v.take 4)) ++ extra :=
    List.drop_append_of_le_length (by omega)
  have hcrcb : ((v ++ extra).drop (8 + u32_from_be_list (v.take 4))).take 4 =
      (v.drop (8 + u32_from_be_list (v.take 4))).take 4 := by
    rw [hdropc]
    exact List.take_append_of_le_length (by simp [List.length_drop]; omega)
  have hL : ¬ ((v ++ extra).length < 12) := by
    simp only [List.length_append]
    omega
  simp only [Chunk.try_from] at hok ⊢
  rw [if_neg h12] at hok
  rw [if_neg hL, htake, hg4, hg5, hg6, hg7]
  have htf : ChunkType.try_from ⟨v.getD 4 0, v.getD 5 0, v.getD 6 0, v.getD 7 0⟩ =
      Except.ok ⟨⟨v.getD 4 0, v.getD 5 0, v.getD 6 0, v.getD 7 0⟩⟩ := rfl
  simp only [htf] at hok ⊢
  by_cases hval : ChunkType.is_valid ⟨⟨v.getD 4 0, v.getD 5 0, v.getD 6 0, v.getD 7 0⟩⟩
  · rw [if_neg (by rw [hval]; decide)] at hok ⊢
    rw [if_neg (by omega)] at hok
    rw [if_neg (by simp only [List.length_append]; omega), hdata]
    cases hnew : Chunk.new ⟨⟨v.getD 4 0, v.getD 5 0, v.getD 6 0, v.getD 7 0⟩⟩
        ((v.drop 8).take (u32_from_be_list (v.take 4))) with
    | none =>
      rw [hnew] at hok
      simp at hok
    | some chunk =>
      simp only [hnew] at hok ⊢
      rw [if_neg (by omega)] at hok
      rw [if_neg (by simp only [List.length_append]; omega), hcrcb]
      exact hok
  · rw [if_pos (by rw [eq_false_of_ne_true hval]; decide)] at hok
    simp at hok

/-- Witness for C10: a serialized one-byte chunk parses identically with two
trailing junk bytes appended. -/
theorem chunk_try_from_ignores_trailing_witness :
    Chunk.try_from (Chunk.as_bytes ⟨rustUpperType, [7]⟩ ++ [9, 9]) =
      some (Except.ok ⟨rustUpperType, [7]⟩) :=
  chunk_try_from_ignores_trailing (Chunk.as_bytes ⟨rustUpperType, [7]⟩) [9, 9]
    ⟨rustUpperType, [7]⟩ (by decide) (by decide)

lemma crcStep_testBit31 (c : Nat) (h : c < 4294967296) :
    (crcStep c).testBit 31 = decide (c % 2 = 1) := by
  unfold crcStep
  have hdiv : c / 2 < 2 ^ 31 := by
    have h31 : (2 : Nat) ^ 31 = 2147483648 := by norm_num
    rw [h31]
    omega
  have hb1 : (c / 2).testBit 31 = false := Nat.testBit_lt_two_pow hdiv
  split_ifs with hc
  · rw [Nat.testBit_xor, hb1]
    have hp : crcPoly.testBit 31 = true := by decide
    rw [hp]
    simp [hc]
  · rw [Nat.testBit_xor, hb1]
    simp [hc]

lemma crcStep_inj {c1 c2 : Nat} (h1 : c1 < 4294967296) (h2 : c2 < 4294967296)
    (h : crcStep c1 = crcStep c2) : c1 = c2 := by
  have hbit := congrArg (fun z => Nat.testBit z 31) h
  simp only [crcStep_testBit31 c1 h1, crcStep_testBit31 c2 h2] at hbit
  have hmod : c1 % 2 = c2 % 2 := by
    rw [decide_eq_decide] at hbit
    omega
  have hdiv : c1 / 2 = c2 / 2 := by
    unfold crcStep at h
    rw [hmod] at h
    exact nat_xor_right_cancel h
  omega

lemma crcRounds_inj : ∀ (n : Nat) {c1 c2 : Nat}, c1 < 4294967296 → c2 < 4294967296 →
    crcRounds n c1 = crcRounds n c2 → c1 = c2
  | 0, _, _, _, _, h => h
  | n + 1, _, _, h1, h2, h =>
    crcStep_inj h1 h2 (crcRounds_inj n (crcStep_lt h1) (crcStep_lt h2) h)

lemma crcByte_inj {c1 c2 b : Nat} (h1 : c1 < 4294967296) (h2 : c2 < 4294967296)
    (hb : b < 4294967296) (h : crcByte c1 b = crcByte c2 b) : c1 = c2 := by
  unfold crcByte at h
  have h2r := crcRounds_inj 8 (xor_lt_u32 h1 hb) (xor_lt_u32 h2 hb) h
  exact nat_xor_right_cancel h2r

lemma crcLoop_inj : ∀ (l : List Nat) {c1 c2 : Nat}, c1 < 4294967296 → c2 < 4294967296 →
    (∀ b ∈ l, b < 256) → crcLoop c1 l = crcLoop c2 l → c1 = c2
  | [], _, _, _, _, _, h => h
  | b :: rest, c1, c2, h1, h2, hl, h => by
    have hb : b < 256 := hl b (List.mem_cons_self b rest)
    have hrec := crcLoop_inj rest (crcByte_lt h1 hb) (crcByte_lt h2 hb)
      (fun x hx => hl x (List.mem_cons_of_mem b hx)) h
    exact crcByte_inj h1 h2 (by omega) hrec

lemma crcLoop_flip : ∀ (pre : List Nat) {c : Nat} (b1 b2 : Nat) (suf : List Nat),
    c < 4294967296 → (∀ x ∈ pre, x < 256) → b1 < 256 → b2 < 256 →
    (∀ x ∈ suf, x < 256) → b1 ≠ b2 →
    crcLoop c (pre ++ b1 :: suf) ≠ crcLoop c (pre ++ b2 :: suf)
  | [], c, b1, b2, suf, hc, _, hb1, hb2, hsuf, hne => fun h => by
    have h2 := crcLoop_inj suf (crcByte_lt hc hb1) (crcByte_lt hc hb2) hsuf h
    unfold crcByte at h2
    have h3 := crcRounds_inj 8 (xor_lt_u32 hc (by omega)) (xor_lt_u32 hc (by omega)) h2
    exact hne (nat_xor_left_cancel h3)
  | p :: pre, c, b1, b2, suf, hc, hpre, hb1, hb2, hsuf, hne => fun h => by
    have hp : p < 256 := hpre p (List.mem_cons_self p pre)
    exact crcLoop_flip pre b1 b2 suf (crcByte_lt hc hp)
      (fun x hx => hpre x (List.mem_cons_of_mem p hx)) hb1 hb2 hsuf hne h

lemma crc32_flip (pre : List Nat) (b1 b2 : Nat) (suf : List Nat)
    (hpre : ∀ x ∈ pre, x < 256) (hb1 : b1 < 256) (hb2 : b2 < 256)
    (hsuf : ∀ x ∈ suf, x < 256) (hne : b1 ≠ b2) :
    crc32 (pre ++ b1 :: suf) ≠ crc32 (pre ++ b2 :: suf) := by
  unfold crc32
  intro h
  exact crcLoop_flip pre b1 b2 suf (by norm_num) hpre hb1 hb2 hsuf hne
    (nat_xor_right_cancel h)

lemma exists_head4 : ∀ (l : List Nat), 4 ≤ l.length →
    ∃ a b c d r, l = a :: b :: c :: d :: r
  | a :: b :: c :: d :: r, _ => ⟨a, b, c, d, r, rfl⟩
  | [], h => by simp at h
  | [_], h => by simp at h
  | [_, _], h => by simp at h
  | [_, _, _], h => by simp at h

lemma getD_cons4_add (x0 x1 x2 x3 : Nat) (l : List Nat) (i d : Nat) :
    (x0 :: x1 :: x2 :: x3 :: l).getD (4 + i) d = l.getD i d := by
  rw [Nat.add_comm]
  rfl

lemma set_cons4_add (x0 x1 x2 x3 a : Nat) (l : List Nat) (i : Nat) :
    (x0 :: x1 :: x2 :: x3 :: l).set (4 + i) a = x0 :: x1 :: x2 :: x3 :: l.set i a := by
  rw [Nat.add_comm]
  rfl

lemma set_append_left {l₁ l₂ : List Nat} (a : Nat) {n : Nat} (h : n < l₁.length) :
    (l₁ ++ l₂).set n a = l₁.set n a ++ l₂ := by
  rw [List.set_append]
  simp [h]

lemma crc32_set_ne (msg : List Nat) (j k : Nat) (hjm : j < msg.length)
    (hmsgb : ∀ x ∈ msg, x < 256) (hk : k < 8) :
    crc32 msg ≠ crc32 (msg.set j (msg.getD j 0 ^^^ 2 ^ k)) := by
  have hbj : msg.getD j 0 = msg[j] := List.getD_eq_getElem msg 0 hjm
  have hbj_lt : msg[j] < 256 := hmsgb _ (List.getElem_mem hjm)
  have h2k : 2 ^ k < 256 := by
    have hle : (2 : Nat) ^ k ≤ 2 ^ 7 := Nat.pow_le_pow_right (by norm_num) (by omega)
    have h7 : (2 : Nat) ^ 7 = 128 := by norm_num
    omega
  have hb'_lt : msg[j] ^^^ 2 ^ k < 256 := by
    have h8 : (256 : Nat) = 2 ^ 8 := by norm_num
    rw [h8] at hbj_lt h2k ⊢
    exact Nat.xor_lt_two_pow hbj_lt h2k
  have hb'_ne : msg[j] ≠ msg[j] ^^^ 2 ^ k := by
    intro heq
    have h0 : msg[j] ^^^ 0 = msg[j] ^^^ 2 ^ k := by
      rw [Nat.xor_zero]
      exact heq
    have hz := nat_xor_left_cancel h0
    have hpos : 0 < 2 ^ k := Nat.two_pow_pos k
    omega
  have hset : msg.set j (msg.getD j 0 ^^^ 2 ^ k) =
      msg.take j ++ (msg[j] ^^^ 2 ^ k) :: msg.drop (j + 1) := by
    rw [hbj, List.set_eq_take_append_cons_drop, if_pos hjm]
  have hsplit : msg = msg.take j ++ msg[j] :: msg.drop (j + 1) := by
    conv_lhs => rw [← List.take_append_drop j msg]
    rw [List.drop_eq_getElem_cons hjm]
  rw [hset]
  conv_lhs => rw [hsplit]
  exact crc32_flip (msg.take j) msg[j] (msg[j] ^^^ 2 ^ k) (msg.drop (j + 1))
    (fun x hx => hmsgb x (List.mem_of_mem_take hx))
    hbj_lt hb'_lt
    (fun x hx => hmsgb x (List.mem_of_mem_drop hx))
    hb'_ne

/-- C3 amended: flipping any single bit of the type or data region of a valid
chunk serialization, while keeping the stored CRC, makes parsing fail: with
InvalidChunkType when the modified type bytes no longer pass is_valid, and
otherwise with CrcMismatch between the stored and the recomputed CRC. -/
theorem chunk_parse_bitflip_fails (t : ChunkType) (d : List Nat) (j k : Nat)
    (_hvalid : t.is_valid = true)
    (ht : ∀ b ∈ t.bytesList, b < 256) (hd : ∀ b ∈ d, b < 256)
    (hlen : d.length ≤ MAX_CHUNK_LEN) (hj : j < 4 + d.length) (hk : k < 8) :
    (ChunkType.is_valid ⟨⟨(flipByteAt (Chunk.as_bytes ⟨t, d⟩) (4 + j) k).getD 4 0,
        (flipByteAt (Chunk.as_bytes ⟨t, d⟩) (4 + j) k).getD 5 0,
        (flipByteAt (Chunk.as_bytes ⟨t, d⟩) (4 + j) k).getD 6 0,
        (flipByteAt (Chunk.as_bytes ⟨t, d⟩) (4 + j) k).getD 7 0⟩⟩ = true →
      ∃ exp act, exp ≠ act ∧
        Chunk.try_from (flipByteAt (Chunk.as_bytes ⟨t, d⟩) (4 + j) k) =
          some (Except.error (PngError.crcMismatch exp act))) ∧
    (ChunkType.is_valid ⟨⟨(flipByteAt (Chunk.as_bytes ⟨t, d⟩) (4 + j) k).getD 4 0,
        (flipByteAt (Chunk.as_bytes ⟨t, d⟩) (4 + j) k).getD 5 0,
        (flipByteAt (Chunk.as_bytes ⟨t, d⟩) (4 + j) k).getD 6 0,
        (flipByteAt (Chunk.as_bytes ⟨t, d⟩) (4 + j) k).getD 7 0⟩⟩ = false →
      Chunk.try_from (flipByteAt (Chunk.as_bytes ⟨t, d⟩) (4 + j) k) =
        some (Except.error PngError.invalidChunkType)) := by
  have hmax : d.length ≤ 2147483648 := by simpa [MAX_CHUNK_LEN] using hlen
  have hmsgb : ∀ x ∈ t.bytesList ++ d, x < 256 := by
    intro x hx
    rcases List.mem_append.mp hx with h | h
    · exact ht x h
    · exact hd x h
  have hmsglen : (t.bytesList ++ d).length = 4 + d.length := by
    simp [ChunkType.bytesList, Bytes4.toList]
    omega
  have hjm : j < (t.bytesList ++ d).length := by
    rw [hmsglen]
    omega
  have hm32 : crc32 (t.bytesList ++ d) < 4294967296 := crc32_lt _ hmsgb
  have habytes : Chunk.as_bytes ⟨t, d⟩ =
      (d.length / 16777216 % 256) :: (d.length / 65536 % 256) ::
      (d.length / 256 % 256) :: (d.length % 256) ::
      ((t.bytesList ++ d) ++ u32_to_be_bytes (crc32 (t.bytesList ++ d))) := by
    simp [Chunk.as_bytes, Chunk.crc, Chunk.length, u32_to_be_bytes,
      Nat.mod_eq_of_lt (show d.length < 4294967296 by omega)]
  have hflip : flipByteAt (Chunk.as_bytes ⟨t, d⟩) (4 + j) k =
      (d.length / 16777216 % 256) :: (d.length / 65536 % 256) ::
      (d.length / 256 % 256) :: (d.length % 256) ::
      (((t.bytesList ++ d).set j ((t.bytesList ++ d).getD j 0 ^^^ 2 ^ k)) ++
        u32_to_be_bytes (crc32 (t.bytesList ++ d))) := by
    simp only [flipByteAt, habytes, getD_cons4_add, set_cons4_add]
    rw [set_append_left _ hjm, getD_append_left _ hjm]
  have hm'len : ((t.bytesList ++ d).set j ((t.bytesList ++ d).getD j 0 ^^^ 2 ^ k)).length
      = 4 + d.length := by
    simp [List.length_set, hmsglen]
  obtain ⟨g0, g1, g2, g3, d', hge⟩ :=
    exists_head4 ((t.bytesList ++ d).set j ((t.bytesList ++ d).getD j 0 ^^^ 2 ^ k))
      (by rw [hm'len]; omega)
  have hd'len : d'.length = d.length := by
    have h2 := hm'len
    rw [hge] at h2
    simp only [List.length_cons] at h2
    omega
  have hcrcne : crc32 (t.bytesList ++ d) ≠
      crc32 ((t.bytesList ++ d).set j ((t.bytesList ++ d).getD j 0 ^^^ 2 ^ k)) :=
    crc32_set_ne (t.bytesList ++ d) j k hjm hmsgb hk
  have heval := chunk_try_from_eval_core
    (d.length / 16777216 % 256) (d.length / 65536 % 256)
    (d.length / 256 % 256) (d.length % 256)
    ⟨⟨g0, g1, g2, g3⟩⟩ d' (crc32 (t.bytesList ++ d))
    (by
      rw [hd'len]
      have hr := u32_roundtrip d.length (by omega)
      simpa [u32_to_be_bytes, u32_from_be_list] using hr)
    hm32
  have heval' : Chunk.try_from ((d.length / 16777216 % 256) :: (d.length / 65536 % 256) ::
      (d.length / 256 % 256) :: (d.length % 256) ::
      g0 :: g1 :: g2 :: g3 :: (d' ++ u32_to_be_bytes (crc32 (t.bytesList ++ d)))) =
      (if ChunkType.is_valid ⟨⟨g0, g1, g2, g3⟩⟩ = false then
        some (Except.error PngError.invalidChunkType)
      else if MAX_CHUNK_LEN < d'.length then none
      else if crc32 (t.bytesList ++ d) =
          crc32 (ChunkType.bytesList ⟨⟨g0, g1, g2, g3⟩⟩ ++ d') then
        some (Except.ok ⟨⟨⟨g0, g1, g2, g3⟩⟩, d'⟩)
      else
        some (Except.error (PngError.crcMismatch (crc32 (t.bytesList ++ d))
          (crc32 (ChunkType.bytesList ⟨⟨g0, g1, g2, g3⟩⟩ ++ d'))))) := heval
  have hflip2 : flipByteAt (Chunk.as_bytes ⟨t, d⟩) (4 + j) k =
      (d.length / 16777216 % 256) :: (d.length / 65536 % 256) ::
      (d.length / 256 % 256) :: (d.length % 256) ::
      g0 :: g1 :: g2 :: g3 :: (d' ++ u32_to_be_bytes (crc32 (t.bytesList ++ d))) := by
    rw [hflip, hge]
    simp [List.cons_append]
  have hblmsg : ChunkType.bytesList ⟨⟨g0, g1, g2, g3⟩⟩ ++ d' =
      (t.bytesList ++ d).set j ((t.bytesList ++ d).getD j 0 ^^^ 2 ^ k) := by
    rw [hge]
    rfl
  have hgd : ChunkType.is_valid ⟨⟨(flipByteAt (Chunk.as_bytes ⟨t, d⟩) (4 + j) k).getD 4 0,
      (flipByteAt (Chunk.as_bytes ⟨t, d⟩) (4 + j) k).getD 5 0,
      (flipByteAt (Chunk.as_bytes ⟨t, d⟩) (4 + j) k).getD 6 0,
      (flipByteAt (Chunk.as_bytes ⟨t, d⟩) (4 + j) k).getD 7 0⟩⟩ =
      ChunkType.is_valid ⟨⟨g0, g1, g2, g3⟩⟩ := by
    rw [hflip2, getD4_cons, getD5_cons, getD6_cons, getD7_cons]
  constructor
  · intro hval'
    rw [hgd] at hval'
    refine ⟨crc32 (t.bytesList ++ d),
      crc32 ((t.bytesList ++ d).set j ((t.bytesList ++ d).getD j 0 ^^^ 2 ^ k)),
      hcrcne, ?_⟩
    rw [hflip2, heval', if_neg (by rw [hval']; decide),
      if_neg (by simp only [hd'len, MAX_CHUNK_LEN]; omega), hblmsg, if_neg hcrcne]
  · intro hval'
    rw [hgd] at hval'
    rw [hflip2, heval', if_pos hval']

/-- Witness for C3 amended: type RuSt with a single data byte, flipping bit 0
of the data byte at serialized index 8 (j = 4); the flipped type bytes stay
valid, so parsing fails with a CRC mismatch. -/
theorem chunk_parse_bitflip_fails_witness :
    ∃ exp act, exp ≠ act ∧
      Chunk.try_from (flipByteAt (Chunk.as_bytes ⟨rustUpperType, [7]⟩) (4 + 4) 0) =
        some (Except.error (PngError.crcMismatch exp act)) :=
  (chunk_parse_bitflip_fails rustUpperType [7] 4 0 (by decide) (by decide) (by decide)
    (by decide) (by decide) (by decide)).1 (by decide)
